import Mathlib

/-!
# Verification of the zero-copy serialization codec

Shallow embedding of the `zero_copy` Go package: a growable byte sink
(`ZeroCopySink`) and a cursor-based byte source (`ZeroCopySource`) sharing a
little-endian wire format with a 1/3/5/9-byte variable-length integer
encoding.

Bytes are modelled as `Nat` values (kept below 256 by every writer).  The
sink's underlying Go slice is modelled as `store` (the backing array, whose
length is the slice capacity) together with the logical length `len`.  A Go
`panic` with `ErrTooLarge` is modelled as `Option.none`.  A source is a byte
list plus a `uint64` cursor; cursor arithmetic that wraps in Go (`BackUp`)
wraps modulo `2 ^ 64` here.
-/

set_option autoImplicit false

/-- `maxInt` from the source: the largest value of a signed address-size
integer on a 64-bit platform (`int(^uint(0) >> 1)`). -/
def maxInt : Nat := 2 ^ 63 - 1

/-- Modulus of Go's `uint64` arithmetic. -/
def u64Mod : Nat := 2 ^ 64

/-- Little-endian byte encoding of the low `k` bytes of `v`, as written by
`binary.LittleEndian.PutUint16/32/64` (byte `i` is `v >> (8*i) & 0xFF`). -/
def leBytes : Nat → Nat → List Nat
  | 0, _ => []
  | k + 1, v => v % 256 :: leBytes k (v / 256)

/-- Little-endian value of a byte list, as read by
`binary.LittleEndian.Uint16/32/64` on bytes (each `< 256`). -/
def leVal : List Nat → Nat
  | [] => 0
  | b :: rest => b + 256 * leVal rest

/-- `copy(store[i:], p)`: overwrite `p.length` bytes of `store` starting at
index `i` with the bytes of `p` (callers always have `i + p.length` within
the store). -/
def setBytes (store : List Nat) (i : Nat) (p : List Nat) : List Nat :=
  store.take i ++ p ++ store.drop (i + p.length)

/-- Modelled from the spec: the overflow-checked unsigned 64-bit addition
collaborator `SafeAdd` (its source file is not part of this repository;
the spec describes it as "a function that adds two unsigned 64-bit values
and reports whether the result overflowed"). -/
def SafeAdd (x y : Nat) : Nat × Bool :=
  ((x + y) % u64Mod, decide (u64Mod ≤ x + y))

/-! ## ZeroCopySink -/

/-- The sink: `store` is the backing array of the Go slice `buf` (so
`store.length` is `cap(buf)`) and `len` is `len(buf)`. -/
structure ZeroCopySink where
  store : List Nat
  len : Nat
  deriving DecidableEq, Repr

namespace ZeroCopySink

/-- `cap(z.buf)`. -/
def cap (z : ZeroCopySink) : Nat := z.store.length

/-- The logical content of the sink, `z.buf` / `z.Bytes()`. -/
def Bytes (z : ZeroCopySink) : List Nat := z.store.take z.len

/-- `Size() uint64 { return uint64(len(z.buf)) }`. -/
def Size (z : ZeroCopySink) : Nat := z.len

/-- `tryGrowByReSlice(n)`: if `n <= cap(z.buf) - len(z.buf)` extend the
length in place and return the write index; otherwise fail. -/
def tryGrowByReSlice (z : ZeroCopySink) (n : Nat) : Option (Nat × ZeroCopySink) :=
  if n ≤ z.cap - z.len then some (z.len, { z with len := z.len + n }) else none

/-- `grow(n)`: fast path by re-slice, else allocate `2*cap + n` (zero-filled,
as Go `make` does), copy the existing bytes, and extend; `none` models the
`panic(ErrTooLarge)` when `c > maxInt - c - n` (computed in signed
address-size arithmetic, hence `Int` here). -/
def grow (z : ZeroCopySink) (n : Nat) : Option (Nat × ZeroCopySink) :=
  match z.tryGrowByReSlice n with
  | some r => some r
  | none =>
    if (z.cap : Int) > (maxInt : Int) - (z.cap : Int) - (n : Int) then
      none
    else
      some (z.len,
        { store := z.store.take z.len ++ List.replicate (2 * z.cap + n - z.len) 0,
          len := z.len + n })

/-- `NextBytes(n)`: reserve `n` bytes; returns the index where the caller may
write, together with the extended sink. -/
def NextBytes (z : ZeroCopySink) (n : Nat) : Option (Nat × ZeroCopySink) :=
  match z.tryGrowByReSlice n with
  | some r => some r
  | none => z.grow n

/-- Sink `BackUp(n)`: `z.buf = z.buf[:len(z.buf)-n]` (capacity kept). -/
def BackUp (z : ZeroCopySink) (n : Nat) : ZeroCopySink :=
  { z with len := z.len - n }

/-- `WriteBytes(p)`: reserve `len(p)` bytes and copy `p` into the window. -/
def WriteBytes (z : ZeroCopySink) (p : List Nat) : Option ZeroCopySink :=
  match z.NextBytes p.length with
  | none => none
  | some (m, z1) => some { z1 with store := setBytes z1.store m p }

/-- `WriteUint8(data)`: reserve one byte and store `data` there. -/
def WriteUint8 (z : ZeroCopySink) (data : Nat) : Option ZeroCopySink :=
  match z.NextBytes 1 with
  | none => none
  | some (m, z1) => some { z1 with store := setBytes z1.store m [data % 256] }

/-- `WriteByte(c)` delegates to `WriteUint8`. -/
def WriteByteGo (z : ZeroCopySink) (c : Nat) : Option ZeroCopySink :=
  z.WriteUint8 c

/-- `WriteBool(data)`: byte `1` for `true`, byte `0` for `false`. -/
def WriteBool (z : ZeroCopySink) (data : Bool) : Option ZeroCopySink :=
  if data then z.WriteByteGo 1 else z.WriteByteGo 0

/-- `WriteVarUint(data)`: reserve the maximal width 9, write the chosen form
(discriminated on `data < 0xFD`, `data <= 0xFFFF`, `data <= 0xFFFFFFFF`),
then back up the unused `9 - size` bytes; returns `size` and the sink. -/
def WriteVarUint (z : ZeroCopySink) (data : Nat) : Option (Nat × ZeroCopySink) :=
  match z.NextBytes 9 with
  | none => none
  | some (m, z1) =>
    let (written, size) :=
      if data < 0xFD then
        ([data % 256], 1)
      else if data ≤ 0xFFFF then
        (0xFD :: leBytes 2 (data % 2 ^ 16), 3)
      else if data ≤ 0xFFFFFFFF then
        (0xFE :: leBytes 4 (data % 2 ^ 32), 5)
      else
        (0xFF :: leBytes 8 (data % 2 ^ 64), 9)
    let z2 : ZeroCopySink := { z1 with store := setBytes z1.store m written }
    some (size, z2.BackUp (9 - size))

/-- `WriteVarBytes(data)`: varint length prefix followed by the raw bytes;
returns the total size `WriteVarUint(l) + l`. -/
def WriteVarBytes (z : ZeroCopySink) (data : List Nat) : Option (Nat × ZeroCopySink) :=
  match z.WriteVarUint data.length with
  | none => none
  | some (s, z1) =>
    match z1.WriteBytes data with
    | none => none
    | some z2 => some (s + data.length, z2)

end ZeroCopySink

/-- `NewZeroCopySink(nil)`: an empty sink with a fresh 512-byte backing
array (`make([]byte, 0, 512)`). -/
def NewZeroCopySinkNil : ZeroCopySink :=
  { store := List.replicate 512 0, len := 0 }

/-! ## ZeroCopySource -/

/-- The source: an immutable byte slice `s` plus the reading cursor `off`
(a `uint64`, so kept below `2 ^ 64`). -/
structure ZeroCopySource where
  s : List Nat
  off : Nat
  deriving DecidableEq, Repr

namespace ZeroCopySource

/-- `Size()`: the original length of the underlying slice. -/
def Size (z : ZeroCopySource) : Nat := z.s.length

/-- `Pos()`: the current cursor. -/
def Pos (z : ZeroCopySource) : Nat := z.off

/-- `Len()`: the unread byte count, `0` whenever `off >= len(s)`. -/
def Len (z : ZeroCopySource) : Nat :=
  if z.off ≥ z.s.length then 0 else z.s.length - z.off

/-- Source `NextBytes(n)`: overflow-checked `end = off + n`, clamped to the
data length with `eof = true` on overflow or overrun; returns the slice
`s[off:end]`, the `eof` flag, and the advanced source. -/
def NextBytes (z : ZeroCopySource) (n : Nat) : (List Nat × Bool) × ZeroCopySource :=
  let m := z.s.length
  let r := SafeAdd z.off n
  let e : Nat × Bool := if r.2 || decide (m < r.1) then (m, true) else (r.1, false)
  (((z.s.drop z.off).take (e.1 - z.off), e.2), { z with off := e.1 })

/-- `Skip(n)`: like `NextBytes` but discarding the data. -/
def Skip (z : ZeroCopySource) (n : Nat) : Bool × ZeroCopySource :=
  let m := z.s.length
  let r := SafeAdd z.off n
  let e : Nat × Bool := if r.2 || decide (m < r.1) then (m, true) else (r.1, false)
  (e.2, { z with off := e.1 })

/-- `NextByte()`: one byte, or `eof` when `off >= len(s)`. -/
def NextByte (z : ZeroCopySource) : (Nat × Bool) × ZeroCopySource :=
  if z.s.length ≤ z.off then ((0, true), z)
  else ((z.s.getD z.off 0, false), { z with off := z.off + 1 })

/-- `NextBool()`: decodes byte `0` as `false`, byte `1` as `true`; any other
byte forces `eof = true` (with the zero value `false` as data). -/
def NextBool (z : ZeroCopySource) : (Bool × Bool) × ZeroCopySource :=
  let ((val, eof), z1) := z.NextByte
  if val = 0 then ((false, eof), z1)
  else if val = 1 then ((true, eof), z1)
  else ((false, true), z1)

/-- Source `BackUp(n)`: `z.off -= n` in wrapping `uint64` arithmetic. -/
def BackUp (z : ZeroCopySource) (n : Nat) : ZeroCopySource :=
  { z with off := (z.off + (u64Mod - n % u64Mod)) % u64Mod }

/-- `NextUint16()`: two little-endian bytes (data `0` on `eof`). -/
def NextUint16 (z : ZeroCopySource) : (Nat × Bool) × ZeroCopySource :=
  let ((buf, eof), z1) := z.NextBytes 2
  if eof then ((0, eof), z1) else ((leVal buf, eof), z1)

/-- `NextUint32()`: four little-endian bytes (data `0` on `eof`). -/
def NextUint32 (z : ZeroCopySource) : (Nat × Bool) × ZeroCopySource :=
  let ((buf, eof), z1) := z.NextBytes 4
  if eof then ((0, eof), z1) else ((leVal buf, eof), z1)

/-- `NextUint64()`: eight little-endian bytes (data `0` on `eof`). -/
def NextUint64 (z : ZeroCopySource) : (Nat × Bool) × ZeroCopySource :=
  let ((buf, eof), z1) := z.NextBytes 8
  if eof then ((0, eof), z1) else ((leVal buf, eof), z1)

/-- `NextVarUint()`: a discriminator byte, then `0`/`2`/`4`/`8` further
little-endian bytes; propagates the first inner `eof` with data `0`. -/
def NextVarUint (z : ZeroCopySource) : (Nat × Bool) × ZeroCopySource :=
  let ((fb, eof), z1) := z.NextByte
  if eof then ((0, eof), z1)
  else if fb = 0xFD then
    let ((val, e), z2) := z1.NextUint16
    if e then ((0, true), z2) else ((val, false), z2)
  else if fb = 0xFE then
    let ((val, e), z2) := z1.NextUint32
    if e then ((0, true), z2) else ((val, false), z2)
  else if fb = 0xFF then
    let ((val, e), z2) := z1.NextUint64
    if e then ((0, true), z2) else ((val, false), z2)
  else ((fb, false), z1)

/-- `NextVarBytes()`: varint count then that many raw bytes; propagates the
count's `eof` immediately (with `nil` data). -/
def NextVarBytes (z : ZeroCopySource) : (List Nat × Bool) × ZeroCopySource :=
  let ((count, eof), z1) := z.NextVarUint
  if eof then (([], eof), z1) else z1.NextBytes count

end ZeroCopySource

/-- `NewZeroCopySource(b)`: a fresh source over `b` with cursor `0`. -/
def NewZeroCopySource (b : List Nat) : ZeroCopySource := { s := b, off := 0 }

/-! ## Spec-side definitions (for refinement statements) -/

/-- The minimal varint encoding as described by the spec (§4.2): the value
itself in one byte when `v ≤ 0xFC`; `0xFD` + little-endian `uint16` when
`v ≤ 0xFFFF`; `0xFE` + little-endian `uint32` when `v ≤ 0xFFFFFFFF`;
`0xFF` + little-endian `uint64` otherwise. -/
def specVarUintEncoding (v : Nat) : List Nat :=
  if v ≤ 0xFC then [v]
  else if v ≤ 0xFFFF then 0xFD :: leBytes 2 v
  else if v ≤ 0xFFFFFFFF then 0xFE :: leBytes 4 v
  else 0xFF :: leBytes 8 v

/-- The var-bytes example of the spec: size and resulting bytes of
`WriteVarBytes([0x01,0x02,0x03])` on an empty sink. -/
def writeVarBytesExample : Option (Nat × List Nat) :=
  (NewZeroCopySinkNil.WriteVarBytes [1, 2, 3]).map (fun r => (r.1, r.2.Bytes))

/-! ## Helper lemmas: little-endian bytes -/

theorem leBytes_length (k v : Nat) : (leBytes k v).length = k := by
  induction k generalizing v with
  | zero => rfl
  | succ k ih => simp [leBytes, ih]

theorem leVal_leBytes (k v : Nat) : leVal (leBytes k v) = v % 2 ^ (8 * k) := by
  induction k generalizing v with
  | zero => simp [leBytes, leVal, Nat.mod_one]
  | succ k ih =>
    have h : (2 : Nat) ^ (8 * (k + 1)) = 256 * 2 ^ (8 * k) := by ring
    simp only [leBytes, leVal, ih, h, Nat.mod_mul]

/-! ## Helper lemmas: setBytes -/

theorem setBytes_length {store : List Nat} {i : Nat} {p : List Nat}
    (h : i + p.length ≤ store.length) :
    (setBytes store i p).length = store.length := by
  simp only [setBytes, List.length_append, List.length_take, List.length_drop]
  omega

theorem setBytes_take {store : List Nat} {i : Nat} (p : List Nat)
    (h : i ≤ store.length) :
    (setBytes store i p).take (i + p.length) = store.take i ++ p := by
  have hl : (store.take i).length = i := by rw [List.length_take]; omega
  have hp : (p ++ store.drop (i + p.length)).take p.length = p := List.take_left _ _
  calc (setBytes store i p).take (i + p.length)
      = (store.take i ++ (p ++ store.drop (i + p.length))).take
          ((store.take i).length + p.length) := by
        rw [setBytes, List.append_assoc, hl]
    _ = store.take i ++ (p ++ store.drop (i + p.length)).take p.length :=
        List.take_append p.length
    _ = store.take i ++ p := by rw [hp]

theorem setBytes_take_prefix {store : List Nat} {i : Nat} (p : List Nat)
    (h : i ≤ store.length) :
    (setBytes store i p).take i = store.take i := by
  have hl : (store.take i).length = i := by rw [List.length_take]; omega
  calc (setBytes store i p).take i
      = ((store.take i).take i) ++
          ((p ++ store.drop (i + p.length)).take (i - i)) := by
        rw [setBytes, List.append_assoc, List.take_append_eq_append_take, hl]
    _ = store.take i := by simp [List.take_take]

/-! ## Helper lemmas: sink growth -/

theorem NextBytes_fst {z : ZeroCopySink} {n m : Nat} {z' : ZeroCopySink}
    (h : z.NextBytes n = some (m, z')) : m = z.len := by
  unfold ZeroCopySink.NextBytes ZeroCopySink.grow ZeroCopySink.tryGrowByReSlice at h
  by_cases hle : n ≤ z.cap - z.len
  · simp [hle] at h
    exact h.1.symm
  · simp [hle] at h
    exact h.2.1.symm

theorem NextBytes_spec {z : ZeroCopySink} {n m : Nat} {z' : ZeroCopySink}
    (hinv : z.len ≤ z.cap) (h : z.NextBytes n = some (m, z')) :
    m = z.len ∧ z'.len = z.len + n ∧ z.len + n ≤ z'.cap ∧
    z'.store.take z.len = z.store.take z.len := by
  unfold ZeroCopySink.NextBytes ZeroCopySink.grow ZeroCopySink.tryGrowByReSlice at h
  by_cases hle : n ≤ z.cap - z.len
  · simp [hle] at h
    obtain ⟨h1, h2⟩ := h
    subst h2
    refine ⟨h1.symm, rfl, ?_, rfl⟩
    simp only [ZeroCopySink.cap] at *
    omega
  · simp [hle] at h
    obtain ⟨hov, h1, h2⟩ := h
    subst h2
    have hlen : (z.store.take z.len).length = z.len := by
      rw [List.length_take]
      simp only [ZeroCopySink.cap] at hinv
      omega
    refine ⟨h1.symm, rfl, ?_, ?_⟩
    · simp only [ZeroCopySink.cap, List.length_append, List.length_replicate, hlen] at *
      omega
    · calc (z.store.take z.len ++
            List.replicate (2 * z.cap + n - z.len) 0).take z.len
          = (z.store.take z.len ++
            List.replicate (2 * z.cap + n - z.len) 0).take
              (z.store.take z.len).length := by rw [hlen]
        _ = z.store.take z.len := List.take_left _ _

theorem Bytes_length {z : ZeroCopySink} (hinv : z.len ≤ z.cap) :
    z.Bytes.length = z.len := by
  simp only [ZeroCopySink.Bytes, ZeroCopySink.cap, List.length_take] at *
  omega

/-- Writing `p` into the window returned by `NextBytes n` (with `p` no longer
than the window): the new state has length `z.len + n`, unchanged capacity,
and its first `z.len + p.length` bytes are the old content followed by `p`. -/
theorem setWindow_spec {z : ZeroCopySink} {n m : Nat} {z1 : ZeroCopySink} (p : List Nat)
    (hinv : z.len ≤ z.cap) (hnb : z.NextBytes n = some (m, z1)) (hp : p.length ≤ n) :
    z1.len = z.len + n ∧ (setBytes z1.store m p).length = z1.cap ∧
    (setBytes z1.store m p).take (z.len + p.length) = z.Bytes ++ p ∧
    z.len + n ≤ z1.cap := by
  obtain ⟨hm, hlen, hcap, htake⟩ := NextBytes_spec hinv hnb
  subst hm
  have hstore : z.len + p.length ≤ z1.store.length := by
    simp only [ZeroCopySink.cap] at hcap
    omega
  refine ⟨hlen, setBytes_length hstore, ?_, hcap⟩
  rw [setBytes_take p (by omega), htake]
  rfl

theorem WriteBytes_spec {z : ZeroCopySink} {p : List Nat} {z' : ZeroCopySink}
    (hinv : z.len ≤ z.cap) (h : z.WriteBytes p = some z') :
    z'.len = z.len + p.length ∧ z'.len ≤ z'.cap ∧ z'.Bytes = z.Bytes ++ p := by
  unfold ZeroCopySink.WriteBytes at h
  cases hnb : z.NextBytes p.length with
  | none => rw [hnb] at h; exact absurd h (by simp)
  | some r =>
    obtain ⟨m, z1⟩ := r
    rw [hnb] at h
    simp only [Option.some.injEq] at h
    subst h
    obtain ⟨hlen, hcap, htake, hroom⟩ := setWindow_spec p hinv hnb le_rfl
    refine ⟨hlen, ?_, ?_⟩
    · simp only [ZeroCopySink.cap] at *
      omega
    · show (setBytes z1.store m p).take (z1.len) = z.Bytes ++ p
      rw [hlen, htake]

theorem WriteUint8_spec {z : ZeroCopySink} {d : Nat} {z' : ZeroCopySink}
    (hinv : z.len ≤ z.cap) (h : z.WriteUint8 d = some z') :
    z'.len = z.len + 1 ∧ z'.len ≤ z'.cap ∧ z'.Bytes = z.Bytes ++ [d % 256] := by
  unfold ZeroCopySink.WriteUint8 at h
  cases hnb : z.NextBytes 1 with
  | none => rw [hnb] at h; exact absurd h (by simp)
  | some r =>
    obtain ⟨m, z1⟩ := r
    rw [hnb] at h
    simp only [Option.some.injEq] at h
    subst h
    obtain ⟨hlen, hcap, htake, hroom⟩ := setWindow_spec [d % 256] hinv hnb le_rfl
    refine ⟨hlen, ?_, ?_⟩
    · simp only [ZeroCopySink.cap] at *
      omega
    · show (setBytes z1.store m [d % 256]).take (z1.len) = z.Bytes ++ [d % 256]
      rw [hlen]
      exact htake

/-! ## Helper lemmas: source reads -/

theorem SafeAdd_no_overflow {x y : Nat} (h : x + y < u64Mod) :
    SafeAdd x y = (x + y, false) := by
  simp [SafeAdd, Nat.mod_eq_of_lt h, Nat.not_le.2 h]

theorem src_NextBytes_ok {z : ZeroCopySource} {n : Nat}
    (h : z.off + n ≤ z.s.length) (hN : z.s.length < u64Mod) :
    z.NextBytes n = (((z.s.drop z.off).take n, false), { z with off := z.off + n }) := by
  unfold ZeroCopySource.NextBytes
  rw [SafeAdd_no_overflow (by omega)]
  simp [Nat.not_lt.2 h]

theorem src_NextBytes_eofCase {z : ZeroCopySource} {n : Nat}
    (h : z.s.length < z.off + n ∨ u64Mod ≤ z.off + n) :
    z.NextBytes n = (((z.s.drop z.off).take (z.s.length - z.off), true),
      { z with off := z.s.length }) := by
  unfold ZeroCopySource.NextBytes SafeAdd
  by_cases hov : u64Mod ≤ z.off + n
  · simp [hov]
  · have hlt : z.s.length < z.off + n := by tauto
    have hmod : (z.off + n) % u64Mod = z.off + n := Nat.mod_eq_of_lt (by omega)
    simp [hov, hmod, hlt]

theorem src_Skip_ok {z : ZeroCopySource} {n : Nat}
    (h : z.off + n ≤ z.s.length) (hN : z.s.length < u64Mod) :
    z.Skip n = (false, { z with off := z.off + n }) := by
  unfold ZeroCopySource.Skip
  rw [SafeAdd_no_overflow (by omega)]
  simp [Nat.not_lt.2 h]

theorem src_Skip_eofCase {z : ZeroCopySource} {n : Nat}
    (h : z.s.length < z.off + n ∨ u64Mod ≤ z.off + n) :
    z.Skip n = (true, { z with off := z.s.length }) := by
  unfold ZeroCopySource.Skip SafeAdd
  by_cases hov : u64Mod ≤ z.off + n
  · simp [hov]
  · have hlt : z.s.length < z.off + n := by tauto
    have hmod : (z.off + n) % u64Mod = z.off + n := Nat.mod_eq_of_lt (by omega)
    simp [hov, hmod, hlt]

theorem src_NextByte_ok {z : ZeroCopySource} (h : z.off < z.s.length) :
    z.NextByte = ((z.s.getD z.off 0, false), { z with off := z.off + 1 }) := by
  unfold ZeroCopySource.NextByte
  rw [if_neg (Nat.not_le.2 h)]

theorem src_NextByte_eof {z : ZeroCopySource} (h : z.s.length ≤ z.off) :
    z.NextByte = ((0, true), z) := by
  unfold ZeroCopySource.NextByte
  rw [if_pos h]

theorem src_NextUint16_ok {z : ZeroCopySource}
    (h : z.off + 2 ≤ z.s.length) (hN : z.s.length < u64Mod) :
    z.NextUint16 = ((leVal ((z.s.drop z.off).take 2), false), { z with off := z.off + 2 }) := by
  unfold ZeroCopySource.NextUint16
  rw [src_NextBytes_ok h hN]
  simp

theorem src_NextUint16_eof {z : ZeroCopySource}
    (h : z.s.length < z.off + 2 ∨ u64Mod ≤ z.off + 2) :
    z.NextUint16 = ((0, true), { z with off := z.s.length }) := by
  unfold ZeroCopySource.NextUint16
  rw [src_NextBytes_eofCase h]
  simp

theorem src_NextUint32_ok {z : ZeroCopySource}
    (h : z.off + 4 ≤ z.s.length) (hN : z.s.length < u64Mod) :
    z.NextUint32 = ((leVal ((z.s.drop z.off).take 4), false), { z with off := z.off + 4 }) := by
  unfold ZeroCopySource.NextUint32
  rw [src_NextBytes_ok h hN]
  simp

theorem src_NextUint32_eof {z : ZeroCopySource}
    (h : z.s.length < z.off + 4 ∨ u64Mod ≤ z.off + 4) :
    z.NextUint32 = ((0, true), { z with off := z.s.length }) := by
  unfold ZeroCopySource.NextUint32
  rw [src_NextBytes_eofCase h]
  simp

theorem src_NextUint64_ok {z : ZeroCopySource}
    (h : z.off + 8 ≤ z.s.length) (hN : z.s.length < u64Mod) :
    z.NextUint64 = ((leVal ((z.s.drop z.off).take 8), false), { z with off := z.off + 8 }) := by
  unfold ZeroCopySource.NextUint64
  rw [src_NextBytes_ok h hN]
  simp

theorem src_NextUint64_eof {z : ZeroCopySource}
    (h : z.s.length < z.off + 8 ∨ u64Mod ≤ z.off + 8) :
    z.NextUint64 = ((0, true), { z with off := z.s.length }) := by
  unfold ZeroCopySource.NextUint64
  rw [src_NextBytes_eofCase h]
  simp

/-! ## Helper lemmas: WriteVarUint -/

/-- Common core of the four `WriteVarUint` branches: after reserving 9 bytes,
writing `written` (of length `size ≤ 9`) and backing up `9 - size`, the sink
holds the old bytes followed by `written`. -/
theorem writeVar_core {z : ZeroCopySink} {m : Nat} {z1 : ZeroCopySink}
    (written : List Nat) (size : Nat)
    (hinv : z.len ≤ z.cap) (hnb : z.NextBytes 9 = some (m, z1))
    (hws : written.length = size) (hs9 : size ≤ 9) :
    (({ z1 with store := setBytes z1.store m written } : ZeroCopySink).BackUp
        (9 - size)).Bytes = z.Bytes ++ written ∧
    (({ z1 with store := setBytes z1.store m written } : ZeroCopySink).BackUp
        (9 - size)).len = z.len + size ∧
    (({ z1 with store := setBytes z1.store m written } : ZeroCopySink).BackUp
        (9 - size)).len ≤
      (({ z1 with store := setBytes z1.store m written } : ZeroCopySink).BackUp
        (9 - size)).cap := by
  obtain ⟨hlen, hcap, htake, hroom⟩ := setWindow_spec written hinv hnb (by omega)
  have hlen2 : (({ z1 with store := setBytes z1.store m written } : ZeroCopySink).BackUp
      (9 - size)).len = z.len + size := by
    simp only [ZeroCopySink.BackUp, hlen]
    omega
  refine ⟨?_, hlen2, ?_⟩
  · show (setBytes z1.store m written).take
        ((({ z1 with store := setBytes z1.store m written } : ZeroCopySink).BackUp
          (9 - size)).len) = z.Bytes ++ written
    rw [hlen2, ← hws, htake]
  · show _ ≤ (setBytes z1.store m written).length
    rw [hlen2, hcap]
    omega

theorem WriteVarUint_spec {z : ZeroCopySink} {v size : Nat} {z' : ZeroCopySink}
    (hinv : z.len ≤ z.cap) (hv : v < 2 ^ 64)
    (h : z.WriteVarUint v = some (size, z')) :
    size = (specVarUintEncoding v).length ∧
    z'.Bytes = z.Bytes ++ specVarUintEncoding v ∧
    z'.len = z.len + size ∧ z'.len ≤ z'.cap := by
  unfold ZeroCopySink.WriteVarUint at h
  cases hnb : z.NextBytes 9 with
  | none => rw [hnb] at h; exact absurd h (by simp)
  | some r =>
    obtain ⟨m, z1⟩ := r
    rw [hnb] at h
    by_cases hc1 : v < 0xFD
    · simp only [hc1, if_pos, Option.some.injEq, Prod.mk.injEq] at h
      obtain ⟨hsize, hz⟩ := h
      subst hsize
      subst hz
      have henc : specVarUintEncoding v = [v % 256] := by
        rw [specVarUintEncoding, if_pos (by omega), Nat.mod_eq_of_lt (by omega)]
      obtain ⟨hb, hl, hlc⟩ := writeVar_core [v % 256] 1 hinv hnb rfl (by omega)
      rw [henc]
      exact ⟨rfl, hb, hl, hlc⟩
    · by_cases hc2 : v ≤ 0xFFFF
      · simp only [hc1, hc2, if_neg, if_pos, if_false, if_true,
          Option.some.injEq, Prod.mk.injEq] at h
        obtain ⟨hsize, hz⟩ := h
        subst hsize
        subst hz
        have henc : specVarUintEncoding v = 0xFD :: leBytes 2 (v % 2 ^ 16) := by
          rw [specVarUintEncoding, if_neg (by omega), if_pos hc2,
            Nat.mod_eq_of_lt (by omega)]
        obtain ⟨hb, hl, hlc⟩ := writeVar_core (0xFD :: leBytes 2 (v % 2 ^ 16)) 3 hinv hnb
          (by simp [leBytes_length]) (by omega)
        rw [henc]
        exact ⟨by simp [leBytes_length], hb, hl, hlc⟩
      · by_cases hc3 : v ≤ 0xFFFFFFFF
        · simp only [hc1, hc2, hc3, if_neg, if_pos, if_false, if_true,
            Option.some.injEq, Prod.mk.injEq] at h
          obtain ⟨hsize, hz⟩ := h
          subst hsize
          subst hz
          have henc : specVarUintEncoding v = 0xFE :: leBytes 4 (v % 2 ^ 32) := by
            rw [specVarUintEncoding, if_neg (by omega), if_neg (by omega), if_pos hc3,
              Nat.mod_eq_of_lt (by omega)]
          obtain ⟨hb, hl, hlc⟩ := writeVar_core (0xFE :: leBytes 4 (v % 2 ^ 32)) 5 hinv hnb
            (by simp [leBytes_length]) (by omega)
          rw [henc]
          exact ⟨by simp [leBytes_length], hb, hl, hlc⟩
        · simp only [hc1, hc2, hc3, if_neg, if_false,
            Option.some.injEq, Prod.mk.injEq] at h
          obtain ⟨hsize, hz⟩ := h
          subst hsize
          subst hz
          have henc : specVarUintEncoding v = 0xFF :: leBytes 8 (v % 2 ^ 64) := by
            rw [specVarUintEncoding, if_neg (by omega), if_neg (by omega),
              if_neg (by omega), Nat.mod_eq_of_lt (by omega)]
          obtain ⟨hb, hl, hlc⟩ := writeVar_core (0xFF :: leBytes 8 (v % 2 ^ 64)) 9 hinv hnb
            (by simp [leBytes_length]) (by omega)
          rw [henc]
          exact ⟨by simp [leBytes_length], hb, hl, hlc⟩

theorem WriteVarUint_isSome (z : ZeroCopySink) (v : Nat) (h9 : 9 ≤ z.cap - z.len) :
    ∃ size z', z.WriteVarUint v = some (size, z') := by
  unfold ZeroCopySink.WriteVarUint ZeroCopySink.NextBytes ZeroCopySink.tryGrowByReSlice
  rw [if_pos h9]
  by_cases hc1 : v < 0xFD
  · rw [if_pos hc1]
    exact ⟨_, _, rfl⟩
  · rw [if_neg hc1]
    by_cases hc2 : v ≤ 0xFFFF
    · rw [if_pos hc2]
      exact ⟨_, _, rfl⟩
    · rw [if_neg hc2]
      by_cases hc3 : v ≤ 0xFFFFFFFF
      · rw [if_pos hc3]
        exact ⟨_, _, rfl⟩
      · rw [if_neg hc3]
        exact ⟨_, _, rfl⟩

/-- Decoding the minimal varint encoding returns the original value with
`eof = false`. -/
theorem NextVarUint_specEncoding (v : Nat) (hv : v < 2 ^ 64) :
    ((NewZeroCopySource (specVarUintEncoding v)).NextVarUint).1 = (v, false) := by
  by_cases hc1 : v ≤ 0xFC
  · rw [specVarUintEncoding, if_pos hc1]
    unfold ZeroCopySource.NextVarUint NewZeroCopySource
    rw [src_NextByte_ok (by simp)]
    have h253 : v ≠ 253 := by omega
    have h254 : v ≠ 254 := by omega
    have h255 : v ≠ 255 := by omega
    simp [List.getD, h253, h254, h255]
  · by_cases hc2 : v ≤ 0xFFFF
    · rw [specVarUintEncoding, if_neg (by omega), if_pos hc2]
      unfold ZeroCopySource.NextVarUint NewZeroCopySource
      rw [src_NextByte_ok (by simp)]
      have ht : (leBytes 2 v).take 2 = leBytes 2 v :=
        List.take_of_length_le (by simp [leBytes_length])
      have hpow : (2 : Nat) ^ (8 * 2) = 65536 := by norm_num
      have hval : leVal (leBytes 2 v) = v := by
        rw [leVal_leBytes, hpow]
        omega
      simp only [List.getD, List.getD_eq_getElem?_getD, List.getElem?_cons_zero,
        Option.getD_some, Bool.false_eq_true, if_false, reduceIte, Nat.zero_add]
      rw [src_NextUint16_ok (by simp [leBytes_length]) (by simp [u64Mod, leBytes_length])]
      simp [List.drop_succ_cons, ht, hval]
    · by_cases hc3 : v ≤ 0xFFFFFFFF
      · rw [specVarUintEncoding, if_neg (by omega), if_neg (by omega), if_pos hc3]
        unfold ZeroCopySource.NextVarUint NewZeroCopySource
        rw [src_NextByte_ok (by simp)]
        have ht : (leBytes 4 v).take 4 = leBytes 4 v :=
          List.take_of_length_le (by simp [leBytes_length])
        have hpow : (2 : Nat) ^ (8 * 4) = 4294967296 := by norm_num
        have hval : leVal (leBytes 4 v) = v := by
          rw [leVal_leBytes, hpow]
          omega
        simp only [List.getD, List.getD_eq_getElem?_getD, List.getElem?_cons_zero,
          Option.getD_some, Bool.false_eq_true, if_false, reduceIte, Nat.zero_add]
        rw [src_NextUint32_ok (by simp [leBytes_length]) (by simp [u64Mod, leBytes_length])]
        simp [List.drop_succ_cons, ht, hval]
      · rw [specVarUintEncoding, if_neg (by omega), if_neg (by omega), if_neg (by omega)]
        unfold ZeroCopySource.NextVarUint NewZeroCopySource
        rw [src_NextByte_ok (by simp)]
        have ht : (leBytes 8 v).take 8 = leBytes 8 v :=
          List.take_of_length_le (by simp [leBytes_length])
        have hpow : (2 : Nat) ^ (8 * 8) = 18446744073709551616 := by norm_num
        have hval : leVal (leBytes 8 v) = v := by
          rw [leVal_leBytes, hpow]
          have : v < 18446744073709551616 := hv
          omega
        simp only [List.getD, List.getD_eq_getElem?_getD, List.getElem?_cons_zero,
          Option.getD_some, Bool.false_eq_true, if_false, reduceIte, Nat.zero_add]
        rw [src_NextUint64_ok (by simp [leBytes_length]) (by simp [u64Mod, leBytes_length])]
        simp [List.drop_succ_cons, ht, hval]

/-! ## Claim theorems -/

set_option maxRecDepth 8000 in
/-- Claim C1: for every uint64 value v (spanning every varint boundary),
writing v with the sink's WriteVarUint into an empty sink and then reading
with NextVarUint from a source constructed over the resulting bytes returns
exactly v with end-of-data = false. -/
theorem c1_varuint_roundtrip (v : Nat) (hv : v < 2 ^ 64) :
    (NewZeroCopySinkNil.WriteVarUint v).map
      (fun r => ((NewZeroCopySource r.2.Bytes).NextVarUint).1) = some (v, false) := by
  have hinv : NewZeroCopySinkNil.len ≤ NewZeroCopySinkNil.cap := by
    show (0 : Nat) ≤ (List.replicate 512 (0 : Nat)).length
    rw [List.length_replicate]
    omega
  obtain ⟨size, z', h⟩ := WriteVarUint_isSome NewZeroCopySinkNil v
    (by show (9 : Nat) ≤ (List.replicate 512 (0 : Nat)).length - 0
        rw [List.length_replicate]
        omega)
  obtain ⟨hsize, hbytes, hlen, hcap⟩ := WriteVarUint_spec hinv hv h
  rw [h]
  have hnil : NewZeroCopySinkNil.Bytes = [] := rfl
  have hb : z'.Bytes = specVarUintEncoding v := by
    rw [hbytes, hnil, List.nil_append]
  simp only [Option.map_some']
  rw [hb]
  rw [NextVarUint_specEncoding v hv]

theorem c1_witness :
    (65535 : Nat) < 2 ^ 64 ∧
    (NewZeroCopySinkNil.WriteVarUint 65535).map
      (fun r => ((NewZeroCopySource r.2.Bytes).NextVarUint).1) = some (65535, false) :=
  ⟨by norm_num, c1_varuint_roundtrip 65535 (by norm_num)⟩

/-- Claim C2: WriteVarUint appends exactly the minimal encoding (1 byte for
v ≤ 0xFC, 3 bytes 0xFD + LE16 for v ≤ 0xFFFF, 5 bytes 0xFE + LE32 for
v ≤ 0xFFFFFFFF, 9 bytes 0xFF + LE64 otherwise); the sink's Size() grows by
exactly that count and WriteVarUint returns it. -/
theorem c2_varuint_minimal_encoding {z : ZeroCopySink} {v size : Nat} {z' : ZeroCopySink}
    (hinv : z.len ≤ z.cap) (hv : v < 2 ^ 64)
    (h : z.WriteVarUint v = some (size, z')) :
    z'.Bytes = z.Bytes ++ specVarUintEncoding v ∧
    size = (specVarUintEncoding v).length ∧
    (v ≤ 0xFC → size = 1) ∧
    (0xFD ≤ v ∧ v ≤ 0xFFFF → size = 3) ∧
    (0x10000 ≤ v ∧ v ≤ 0xFFFFFFFF → size = 5) ∧
    (0x100000000 ≤ v → size = 9) ∧
    z'.Size = z.Size + size := by
  obtain ⟨hsize, hbytes, hlen, hcap⟩ := WriteVarUint_spec hinv hv h
  refine ⟨hbytes, hsize, ?_, ?_, ?_, ?_, hlen⟩
  · intro h1
    rw [hsize, specVarUintEncoding, if_pos h1]
    rfl
  · intro ⟨h1, h2⟩
    rw [hsize, specVarUintEncoding, if_neg (by omega), if_pos h2]
    simp [leBytes_length]
  · intro ⟨h1, h2⟩
    rw [hsize, specVarUintEncoding, if_neg (by omega), if_neg (by omega), if_pos h2]
    simp [leBytes_length]
  · intro h1
    rw [hsize, specVarUintEncoding, if_neg (by omega), if_neg (by omega), if_neg (by omega)]
    simp [leBytes_length]

theorem c2_witness :
    (ZeroCopySink.Bytes ⟨[253, 44, 1, 0, 0, 0, 0, 0, 0], 3⟩ =
      ZeroCopySink.Bytes ⟨[], 0⟩ ++ specVarUintEncoding 300) ∧
    (3 : Nat) = (specVarUintEncoding 300).length ∧
    ((300 : Nat) ≤ 0xFC → (3 : Nat) = 1) ∧
    (0xFD ≤ (300 : Nat) ∧ (300 : Nat) ≤ 0xFFFF → (3 : Nat) = 3) ∧
    (0x10000 ≤ (300 : Nat) ∧ (300 : Nat) ≤ 0xFFFFFFFF → (3 : Nat) = 5) ∧
    (0x100000000 ≤ (300 : Nat) → (3 : Nat) = 9) ∧
    ZeroCopySink.Size ⟨[253, 44, 1, 0, 0, 0, 0, 0, 0], 3⟩ =
      ZeroCopySink.Size ⟨[], 0⟩ + 3 :=
  c2_varuint_minimal_encoding (by decide) (by norm_num) (by decide)

set_option maxRecDepth 8000 in
/-- Claim C9: WriteVarBytes([0x01,0x02,0x03]) on an empty sink produces the
wire bytes 0x03 0x01 0x02 0x03 and returns 4; NextVarBytes on those bytes
yields [0x01,0x02,0x03] with end-of-data = false. -/
theorem c9_varbytes_example :
    writeVarBytesExample = some (4, [3, 1, 2, 3]) ∧
    ((NewZeroCopySource [3, 1, 2, 3]).NextVarBytes).1 = ([1, 2, 3], false) := by
  constructor
  · rfl
  · rfl

/-- Claim C10: Len() is total and never underflows: it returns
Size() - Pos() when the cursor is within the data and 0 whenever the cursor
is at or beyond the data length (including a cursor wrapped past the length
by BackUp). -/
theorem c10_len_total (z : ZeroCopySource) :
    z.Len + min z.Pos z.Size = z.Size ∧
    (z.Size ≤ z.Pos → z.Len = 0) ∧
    (z.Pos ≤ z.Size → z.Len = z.Size - z.Pos) := by
  unfold ZeroCopySource.Len ZeroCopySource.Pos ZeroCopySource.Size
  by_cases h : z.off ≥ z.s.length
  · rw [if_pos h]
    omega
  · rw [if_neg h]
    omega

theorem c10_witness :
    ZeroCopySource.Size ((NewZeroCopySource [7]).BackUp 1) ≤
      ZeroCopySource.Pos ((NewZeroCopySource [7]).BackUp 1) ∧
    ZeroCopySource.Len ((NewZeroCopySource [7]).BackUp 1) = 0 :=
  ⟨by decide, (c10_len_total ((NewZeroCopySource [7]).BackUp 1)).2.1 (by decide)⟩

/-- Claim C3: on the slow path (free capacity insufficient), grow allocates a
new buffer of exactly 2*capacity + n, copies all existing bytes into it (so
the new capacity accommodates the request), and panics if and only if
2*capacity + n overflows the signed address-size integer. -/
theorem c3_grow_slow_path (z : ZeroCopySink) (n : Nat)
    (hinv : z.len ≤ z.cap) (hslow : z.cap - z.len < n) :
    (z.grow n = none ↔ maxInt < 2 * z.cap + n) ∧
    (∀ m z', z.grow n = some (m, z') →
      z'.cap = 2 * z.cap + n ∧ z'.store.take z.len = z.store.take z.len ∧
      z'.len = z.len + n ∧ z'.len ≤ z'.cap) := by
  have htry : z.tryGrowByReSlice n = none := by
    unfold ZeroCopySink.tryGrowByReSlice
    rw [if_neg (by omega)]
  constructor
  · unfold ZeroCopySink.grow
    rw [htry]
    by_cases hov : (z.cap : Int) > (maxInt : Int) - (z.cap : Int) - (n : Int)
    · rw [if_pos hov]
      constructor
      · intro _
        omega
      · intro _
        rfl
    · rw [if_neg hov]
      constructor
      · intro hcontra
        exact absurd hcontra (by simp)
      · intro hlt
        exact absurd hov (by simp; omega)
  · intro m z' h
    unfold ZeroCopySink.grow at h
    rw [htry] at h
    by_cases hov : (z.cap : Int) > (maxInt : Int) - (z.cap : Int) - (n : Int)
    · rw [if_pos hov] at h
      exact absurd h (by simp)
    · rw [if_neg hov] at h
      simp only [Option.some.injEq, Prod.mk.injEq] at h
      obtain ⟨hm, hz⟩ := h
      subst hz
      have hlen : (z.store.take z.len).length = z.len := by
        rw [List.length_take]
        simp only [ZeroCopySink.cap] at hinv
        omega
      refine ⟨?_, ?_, rfl, ?_⟩
      · show (z.store.take z.len ++ List.replicate (2 * z.cap + n - z.len) 0).length
            = 2 * z.cap + n
        rw [List.length_append, List.length_replicate, hlen]
        simp only [ZeroCopySink.cap] at *
        omega
      · calc (z.store.take z.len ++
              List.replicate (2 * z.cap + n - z.len) 0).take z.len
            = (z.store.take z.len ++
              List.replicate (2 * z.cap + n - z.len) 0).take
                (z.store.take z.len).length := by rw [hlen]
          _ = z.store.take z.len := List.take_left _ _
      · show z.len + n ≤ (z.store.take z.len ++
            List.replicate (2 * z.cap + n - z.len) 0).length
        rw [List.length_append, List.length_replicate, hlen]
        simp only [ZeroCopySink.cap] at *
        omega

theorem c3_witness :
    (ZeroCopySink.grow ⟨[5], 1⟩ 3 = none ↔ maxInt < 2 * ZeroCopySink.cap ⟨[5], 1⟩ + 3) ∧
    (ZeroCopySink.cap ⟨[5, 0, 0, 0, 0], 4⟩ = 2 * ZeroCopySink.cap ⟨[5], 1⟩ + 3 ∧
      ([5, 0, 0, 0, 0] : List Nat).take 1 = ([5] : List Nat).take 1 ∧
      (4 : Nat) = 1 + 3 ∧ (4 : Nat) ≤ ZeroCopySink.cap ⟨[5, 0, 0, 0, 0], 4⟩) := by
  have h := c3_grow_slow_path ⟨[5], 1⟩ 3 (by decide) (by decide)
  exact ⟨h.1, h.2 1 ⟨[5, 0, 0, 0, 0], 4⟩ (by decide)⟩

/-- Claim C4: for a source over N bytes with cursor c ≤ N, NextBytes(n) and
Skip(n) report end-of-data exactly when c + n overflows uint64 or exceeds N;
then the returned slice is the truncated remainder, the cursor is pinned at
N and every subsequent (non-empty) read also reports end-of-data; otherwise
the full n-byte slice is returned and the cursor advances to c + n. -/
theorem c4_source_exhaustion (z : ZeroCopySource) (n : Nat)
    (hc : z.off ≤ z.s.length) (hn : n < u64Mod) (hN : z.s.length < u64Mod) :
    ((z.NextBytes n).1.2 = true ↔ u64Mod ≤ z.off + n ∨ z.s.length < z.off + n) ∧
    ((z.NextBytes n).1.2 = true →
      (z.NextBytes n).1.1 = z.s.drop z.off ∧
      (z.NextBytes n).2.off = z.s.length ∧
      ∀ k, 0 < k → (((z.NextBytes n).2).NextBytes k).1.2 = true) ∧
    ((z.NextBytes n).1.2 = false →
      (z.NextBytes n).1.1 = (z.s.drop z.off).take n ∧
      ((z.NextBytes n).1.1).length = n ∧
      (z.NextBytes n).2.off = z.off + n) ∧
    (z.Skip n).1 = (z.NextBytes n).1.2 ∧ (z.Skip n).2 = (z.NextBytes n).2 := by
  by_cases hend : z.off + n ≤ z.s.length
  · rw [src_NextBytes_ok hend hN, src_Skip_ok hend hN]
    refine ⟨?_, ?_, ?_, rfl, rfl⟩
    · simp
      omega
    · intro hcontra
      exact absurd hcontra (by simp)
    · intro _
      refine ⟨rfl, ?_, rfl⟩
      rw [List.length_take, List.length_drop]
      omega
  · have hor : z.s.length < z.off + n ∨ u64Mod ≤ z.off + n := Or.inl (by omega)
    rw [src_NextBytes_eofCase hor, src_Skip_eofCase hor]
    refine ⟨?_, ?_, ?_, rfl, rfl⟩
    · simp
      omega
    · intro _
      refine ⟨?_, rfl, ?_⟩
      · exact List.take_of_length_le (by rw [List.length_drop])
      · intro k hk
        rw [src_NextBytes_eofCase (Or.inl (by simp; omega))]
    · intro hcontra
      exact absurd hcontra (by simp)

theorem c4_witness :
    ((ZeroCopySource.NextBytes ⟨[9, 8, 7], 1⟩ 5).1.2 = true) ∧
    ((ZeroCopySource.NextBytes ⟨[9, 8, 7], 1⟩ 5).1.1 = [8, 7]) ∧
    ((ZeroCopySource.NextBytes ⟨[9, 8, 7], 1⟩ 5).2.off = 3) ∧
    (((ZeroCopySource.NextBytes ⟨[9, 8, 7], 1⟩ 5).2.NextBytes 1).1.2 = true) := by
  have h := c4_source_exhaustion ⟨[9, 8, 7], 1⟩ 5 (by decide)
    (by norm_num [u64Mod]) (by norm_num [u64Mod])
  have heof : (ZeroCopySource.NextBytes ⟨[9, 8, 7], 1⟩ 5).1.2 = true :=
    h.1.mpr (Or.inr (by norm_num))
  obtain ⟨hdata, hoff, hsub⟩ := h.2.1 heof
  exact ⟨heof, hdata, hoff, hsub 1 (by norm_num)⟩

/-- Claim C5: if NextVarUint reads discriminator 0xFD/0xFE/0xFF but fewer
than 2/4/8 further bytes remain, it returns data 0 with end-of-data = true,
propagating the first inner eof without further reads, and the cursor is
clamped at the end of the data. -/
theorem c5_varuint_short_read (z : ZeroCopySource)
    (hoff : z.off < z.s.length) (hN : z.s.length < u64Mod)
    (hshort :
      (z.s.getD z.off 0 = 0xFD ∧ z.s.length < z.off + 1 + 2) ∨
      (z.s.getD z.off 0 = 0xFE ∧ z.s.length < z.off + 1 + 4) ∨
      (z.s.getD z.off 0 = 0xFF ∧ z.s.length < z.off + 1 + 8)) :
    z.NextVarUint = ((0, true), { z with off := z.s.length }) := by
  unfold ZeroCopySource.NextVarUint
  rw [src_NextByte_ok hoff]
  rcases hshort with ⟨hfb, hr⟩ | ⟨hfb, hr⟩ | ⟨hfb, hr⟩
  · rw [hfb]
    have h16 : (⟨z.s, z.off + 1⟩ : ZeroCopySource).NextUint16 =
        ((0, true), ⟨z.s, z.s.length⟩) := by
      have hlt : (⟨z.s, z.off + 1⟩ : ZeroCopySource).s.length <
          (⟨z.s, z.off + 1⟩ : ZeroCopySource).off + 2 := by
        simp only []
        omega
      simpa using src_NextUint16_eof (Or.inl hlt)
    simp [h16]
  · rw [hfb]
    have h32 : (⟨z.s, z.off + 1⟩ : ZeroCopySource).NextUint32 =
        ((0, true), ⟨z.s, z.s.length⟩) := by
      have hlt : (⟨z.s, z.off + 1⟩ : ZeroCopySource).s.length <
          (⟨z.s, z.off + 1⟩ : ZeroCopySource).off + 4 := by
        simp only []
        omega
      simpa using src_NextUint32_eof (Or.inl hlt)
    simp [h32]
  · rw [hfb]
    have h64 : (⟨z.s, z.off + 1⟩ : ZeroCopySource).NextUint64 =
        ((0, true), ⟨z.s, z.s.length⟩) := by
      have hlt : (⟨z.s, z.off + 1⟩ : ZeroCopySource).s.length <
          (⟨z.s, z.off + 1⟩ : ZeroCopySource).off + 8 := by
        simp only []
        omega
      simpa using src_NextUint64_eof (Or.inl hlt)
    simp [h64]

theorem c5_witness :
    ZeroCopySource.NextVarUint ⟨[253, 7], 0⟩ = ((0, true), ⟨[253, 7], 2⟩) :=
  c5_varuint_short_read ⟨[253, 7], 0⟩ (by decide) (by norm_num [u64Mod])
    (Or.inl ⟨by decide, by decide⟩)

/-- Claim C6 counterexample: after a clamped Skip, BackUp does not restore
the original cursor (it wraps below zero), and a subsequent read differs
from the one before the skip — refuting the universally quantified claim. -/
theorem c6_counterexample :
    ((ZeroCopySource.Skip ⟨[7, 8], 1⟩ 5).2.BackUp 5).Pos ≠
      ZeroCopySource.Pos ⟨[7, 8], 1⟩ ∧
    (((ZeroCopySource.Skip ⟨[7, 8], 1⟩ 5).2.BackUp 5).NextByte).1 ≠
      (ZeroCopySource.NextByte ⟨[7, 8], 1⟩).1 := by
  constructor
  · decide
  · decide

/-- Claim C6 (amended): for a source, when Skip(n) does not pass the end of
the data, BackUp(n) restores the source exactly (hence all subsequent
reads); for a sink, when reserving n bytes via NextBytes(n) succeeds,
BackUp(n) restores the original length and content, and a subsequent write
occupies the same buffer region (same write index). -/
theorem c6_backup_symmetry_amended (zr : ZeroCopySource) (n : Nat)
    (hn : zr.off + n ≤ zr.s.length) (hN : zr.s.length < u64Mod)
    (zs : ZeroCopySink) (k m : Nat) (z1 : ZeroCopySink)
    (hinv : zs.len ≤ zs.cap) (hres : zs.NextBytes k = some (m, z1)) :
    ((zr.Skip n).2.BackUp n = zr) ∧
    (z1.BackUp k).len = zs.len ∧
    (z1.BackUp k).Bytes = zs.Bytes ∧
    (∀ k2 m2 z2, (z1.BackUp k).NextBytes k2 = some (m2, z2) → m2 = zs.len) := by
  obtain ⟨hm, hlen, hcap, htake⟩ := NextBytes_spec hinv hres
  refine ⟨?_, ?_, ?_, ?_⟩
  · have hoff : (zr.off + n + (u64Mod - n % u64Mod)) % u64Mod = zr.off := by
      have hmod : n % u64Mod = n := Nat.mod_eq_of_lt (by omega)
      rw [hmod]
      have h1 : zr.off + n + (u64Mod - n) = zr.off + u64Mod := by omega
      rw [h1, Nat.add_mod_right]
      exact Nat.mod_eq_of_lt (by omega)
    rw [src_Skip_ok hn hN]
    show (⟨zr.s, (zr.off + n + (u64Mod - n % u64Mod)) % u64Mod⟩ : ZeroCopySource) = zr
    rw [hoff]
  · show z1.len - k = zs.len
    omega
  · show z1.store.take (z1.len - k) = zs.Bytes
    have he : z1.len - k = zs.len := by omega
    rw [he, htake]
    rfl
  · intro k2 m2 z2 h
    rw [NextBytes_fst h]
    show z1.len - k = zs.len
    omega

theorem c6_witness :
    ((ZeroCopySource.Skip ⟨[4, 5], 0⟩ 2).2.BackUp 2 = (⟨[4, 5], 0⟩ : ZeroCopySource)) ∧
    ((ZeroCopySink.BackUp ⟨[0], 1⟩ 1).len = ZeroCopySink.len ⟨[], 0⟩) ∧
    ((ZeroCopySink.BackUp ⟨[0], 1⟩ 1).Bytes = ZeroCopySink.Bytes ⟨[], 0⟩) ∧
    ((0 : Nat) = ZeroCopySink.len ⟨[], 0⟩) := by
  have h := c6_backup_symmetry_amended ⟨[4, 5], 0⟩ 2 (by decide) (by norm_num [u64Mod])
    ⟨[], 0⟩ 1 0 ⟨[0], 1⟩ (by decide) (by decide)
  exact ⟨h.1, h.2.1, h.2.2.1, h.2.2.2 3 0 ⟨[0, 0, 0, 0, 0], 3⟩ (by decide)⟩

/-- Claim C7: every sink write preserves previously written bytes — after
WriteBytes or a NextBytes reserve, the first k bytes (k = previous length)
are unchanged, length never exceeds capacity, and written bytes survive
growth/reallocation. -/
theorem c7_write_preserves (z : ZeroCopySink) (p : List Nat) (n : Nat)
    (hinv : z.len ≤ z.cap) :
    (∀ z', z.WriteBytes p = some z' →
      z'.len ≤ z'.cap ∧ z'.Bytes = z.Bytes ++ p ∧ z'.Bytes.take z.len = z.Bytes) ∧
    (∀ m z', z.NextBytes n = some (m, z') →
      z'.len ≤ z'.cap ∧ z'.Bytes.take z.len = z.Bytes) := by
  constructor
  · intro z' h
    obtain ⟨hlen, hcap, hbytes⟩ := WriteBytes_spec hinv h
    refine ⟨hcap, hbytes, ?_⟩
    rw [hbytes, ← Bytes_length hinv, List.take_left]
  · intro m z' h
    obtain ⟨hm, hlen, hcap, htake⟩ := NextBytes_spec hinv h
    refine ⟨by omega, ?_⟩
    show (z'.store.take z'.len).take z.len = z.Bytes
    rw [List.take_take]
    have hmin : z.len ⊓ z'.len = z.len := by omega
    rw [hmin, htake]
    rfl

theorem c7_witness :
    (ZeroCopySink.len ⟨[9, 4, 5, 0], 3⟩ ≤ ZeroCopySink.cap ⟨[9, 4, 5, 0], 3⟩) ∧
    (ZeroCopySink.Bytes ⟨[9, 4, 5, 0], 3⟩ = ZeroCopySink.Bytes ⟨[9], 1⟩ ++ [4, 5]) ∧
    ((ZeroCopySink.Bytes ⟨[9, 4, 5, 0], 3⟩).take 1 = ZeroCopySink.Bytes ⟨[9], 1⟩) :=
  (c7_write_preserves ⟨[9], 1⟩ [4, 5] 0 (by decide)).1 ⟨[9, 4, 5, 0], 3⟩ (by decide)

/-- Claim C8: WriteBool encodes false as byte 0x00 and true as 0x01;
NextBool decodes byte 0x00 as false and 0x01 as true with
end-of-data = false, and any other byte (or an exhausted source) yields
end-of-data = true. -/
theorem c8_bool_codec (zs : ZeroCopySink) (b : Bool) (z : ZeroCopySource)
    (hinv : zs.len ≤ zs.cap) :
    (∀ z', zs.WriteBool b = some z' →
      z'.Bytes = zs.Bytes ++ [if b then 1 else 0]) ∧
    (z.off < z.s.length → z.s.getD z.off 0 = 0 → (z.NextBool).1 = (false, false)) ∧
    (z.off < z.s.length → z.s.getD z.off 0 = 1 → (z.NextBool).1 = (true, false)) ∧
    (z.off < z.s.length → 2 ≤ z.s.getD z.off 0 → (z.NextBool).1.2 = true) ∧
    (z.s.length ≤ z.off → (z.NextBool).1.2 = true) := by
  refine ⟨?_, ?_, ?_, ?_, ?_⟩
  · intro z' h
    unfold ZeroCopySink.WriteBool ZeroCopySink.WriteByteGo at h
    cases b with
    | false =>
      rw [if_neg (by simp)] at h
      obtain ⟨hl, hc, hbytes⟩ := WriteUint8_spec hinv h
      rw [hbytes]
      rfl
    | true =>
      rw [if_pos rfl] at h
      obtain ⟨hl, hc, hbytes⟩ := WriteUint8_spec hinv h
      rw [hbytes]
      rfl
  · intro hlt h0
    unfold ZeroCopySource.NextBool
    rw [src_NextByte_ok hlt, h0]
    simp
  · intro hlt h1
    unfold ZeroCopySource.NextBool
    rw [src_NextByte_ok hlt, h1]
    simp
  · intro hlt h2
    unfold ZeroCopySource.NextBool
    rw [src_NextByte_ok hlt]
    have hne0 : z.s.getD z.off 0 ≠ 0 := by omega
    have hne1 : z.s.getD z.off 0 ≠ 1 := by omega
    simp only [List.getD_eq_getElem?_getD] at hne0 hne1
    simp [hne0, hne1]
  · intro hge
    unfold ZeroCopySource.NextBool
    rw [src_NextByte_eof hge]
    simp

theorem c8_witness :
    (ZeroCopySink.Bytes ⟨[1], 1⟩ =
      ZeroCopySink.Bytes ⟨[], 0⟩ ++ [if true then 1 else 0]) ∧
    ((ZeroCopySource.NextBool ⟨[1], 0⟩).1 = (true, false)) :=
  ⟨(c8_bool_codec ⟨[], 0⟩ true ⟨[1], 0⟩ (by decide)).1 ⟨[1], 1⟩ (by decide),
   (c8_bool_codec ⟨[], 0⟩ true ⟨[1], 0⟩ (by decide)).2.2.1 (by decide) (by decide)⟩
